import Mathlib

/-!
Verification of `initdsg/dynamodb-service` (`src/AbstractService.ts`,
`src/utils.ts`) against its natural-language specification.

The service layer is request-shaping glue: every operation builds a remote
command from declarative options and shapes the remote response.  The
embedding below models each operation as a pure function from its options
(and, where relevant, the remote responses it consumes in order) to the
built request and the returned value.  Attribute values travel through the
source as `unknown`; all the code ever does with them is test their
JavaScript truthiness and (for range bounds) compare them with `>`, so they
are modelled by a small value type with exactly those observations.
-/

namespace DynamoDBService

/-- A table attribute value as the repository handles it: the source passes
values around as `unknown`, and its tables declare string and number
attributes. -/
inductive JsVal where
  | str (s : String)
  | num (n : Int)
deriving DecidableEq

/-- JavaScript truthiness of a value: `0` and `""` are falsy. -/
def JsVal.truthy : JsVal → Bool
  | .str s => s != ""
  | .num n => n != 0

/-- JavaScript truthiness of a possibly-undefined value (`undefined` is
falsy). -/
def jsTruthy : Option JsVal → Bool
  | none => false
  | some v => v.truthy

/-- JavaScript truthiness of a possibly-undefined string (`undefined` and
`""` are falsy). -/
def jsStrTruthy : Option String → Bool
  | none => false
  | some s => s != ""

/-- JavaScript truthiness of a possibly-undefined number (`undefined` and
`0` are falsy). -/
def jsNatTruthy : Option Nat → Bool
  | none => false
  | some n => n != 0

/-- JavaScript `>` on two attribute values of like type (numeric for
numbers, lexicographic for strings, matching the attribute's declared type;
the source only ever compares the two bounds of one range attribute, which
share a declared type, so the cross-type coercions of JS `>` never arise). -/
def JsVal.gt : JsVal → JsVal → Bool
  | .num a, .num b => decide (b < a)
  | .str a, .str b => decide (b < a)
  | _, _ => false

/-- JS `>` lifted to possibly-undefined operands (comparisons against
`undefined` are never true). -/
def jsGtOpt : Option JsVal → Option JsVal → Bool
  | some a, some b => a.gt b
  | _, _ => false

/-- The single error kind of the repository (`src/ServiceError.ts`),
thrown by `_queryBetween` on inverted range bounds. -/
structure ServiceError where
  message : String
deriving DecidableEq

/-- The `order` option: `"asc" | "dsc"`. -/
inductive Order where
  | asc
  | dsc
deriving DecidableEq

/-- The JS presence test `rangeKey && rangeKeyValue` shared by `_query`,
`_batchGet` and `_delete`: the pair participates only when both the key name
and the value are defined and truthy, so a value of `0` (or an empty key
name) is treated as absent. -/
def jsRangePair (rk : Option String) (rv : Option JsVal) : Option (String × JsVal) :=
  match rk, rv with
  | some k, some v => if k != "" && v.truthy then some (k, v) else none
  | _, _ => none

/-- The single key-map entry contributed by a truthy range pair. -/
def jsRangeEntry (rk : Option String) (rv : Option JsVal) : List (String × JsVal) :=
  match jsRangePair rk rv with
  | some (k, v) => [(k, v)]
  | none => []

/-- `GetOptions<T>` of `AbstractService.ts` (key names as strings, optional
fields `none` when the caller leaves them `undefined`). -/
structure GetOptions where
  index : Option String := none
  order : Option Order := none
  limit : Option Nat := none
  hashKey : String
  hashKeyValue : JsVal
  rangeKey : Option String := none
  rangeKeyValue : Option JsVal := none

/-- The fields of the remote `QueryCommandInput` that `_query` and
`_queryBetween` populate.  An optional field is `none` when the code leaves
it unset (a JS object field holding `undefined` is omitted from the wire
request). -/
structure QueryCommandInput where
  tableName : String
  keyConditionExpression : String
  expressionAttributeNames : List (String × String)
  expressionAttributeValues : List (String × JsVal)
  limit : Option Nat := none
  scanIndexForward : Option Bool := none
  indexName : Option String := none
deriving DecidableEq

/-- Request building of `_query` (`AbstractService.ts` lines 137-196).
The range clause, its attribute name and its attribute value are all guarded
by the truthy test `rangeKey && rangeKeyValue`; `ScanIndexForward` is set
only under `if (order)` (an order, when supplied, is one of two non-empty
strings, hence truthy); `Limit` is always assigned the option's value;
`IndexName` is set only under `if (index)`.  The local `keys` object built
at the top of the source function is never used in the request and is not
modelled. -/
def queryBuild (tableName : String) (o : GetOptions) : QueryCommandInput :=
  let hk := o.hashKey
  let base := "#" ++ hk ++ " = :" ++ hk
  { tableName := tableName
    keyConditionExpression :=
      match jsRangePair o.rangeKey o.rangeKeyValue with
      | some (rk, _) => base ++ " and #" ++ rk ++ " = :" ++ rk
      | none => base
    expressionAttributeNames :=
      [("#" ++ hk, hk)] ++
        (match jsRangePair o.rangeKey o.rangeKeyValue with
         | some (rk, _) => [("#" ++ rk, rk)]
         | none => [])
    expressionAttributeValues :=
      [(":" ++ hk, o.hashKeyValue)] ++
        (match jsRangePair o.rangeKey o.rangeKeyValue with
         | some (rk, rv) => [(":" ++ rk, rv)]
         | none => [])
    limit := o.limit
    scanIndexForward := o.order.map (fun ord => ord == Order.asc)
    indexName := if jsStrTruthy o.index then o.index else none }

/-- `(Items as T[]) || []`: the result shaping shared by `_query` and
`_queryBetween`; a remote response without an item list yields the empty
array (a present `Items` array is an object and hence truthy even when
empty). -/
def queryResultItems {I : Type} (respItems : Option (List I)) : List I :=
  respItems.getD []

/-- `_query`: the issued request paired with the result computed from the
remote response's optional item list. -/
def queryRun {I : Type} (tableName : String) (o : GetOptions)
    (respItems : Option (List I)) : QueryCommandInput × List I :=
  (queryBuild tableName o, queryResultItems respItems)

/-- The options of `_queryBetween`: `GetOptions` with the range value
replaced by a start and an end bound. -/
structure BetweenOptions where
  index : Option String := none
  hashKey : String
  hashKeyValue : JsVal
  rangeKey : Option String := none
  rangeKeyStartValue : Option JsVal := none
  rangeKeyEndValue : Option JsVal := none

/-- Request building of `_queryBetween` (`AbstractService.ts` lines
210-278).  The inverted-bounds check runs only when the range key name and
BOTH bounds are truthy; the `between` clause is appended when the range key
name and the start bound are truthy; the attribute name/value maps are
extended when the range key name and both bounds are defined
(`!= undefined`).  The local `keys` object (which stores the bounds under
their own values used as attribute names) is never used in the request and
is not modelled. -/
def queryBetweenBuild (tableName : String) (o : BetweenOptions) :
    Except ServiceError QueryCommandInput :=
  if jsStrTruthy o.rangeKey && jsTruthy o.rangeKeyStartValue
      && jsTruthy o.rangeKeyEndValue
      && jsGtOpt o.rangeKeyStartValue o.rangeKeyEndValue then
    .error { message := "QueryBetween start value is greater than end value" }
  else
    let hk := o.hashKey
    let base := "#" ++ hk ++ " = :" ++ hk
    let kce :=
      match o.rangeKey with
      | some rk =>
        if rk != "" && jsTruthy o.rangeKeyStartValue then
          base ++ " and #" ++ rk ++ " between :startValue and :endValue"
        else base
      | none => base
    let maps :=
      match o.rangeKey, o.rangeKeyStartValue, o.rangeKeyEndValue with
      | some rk, some sv, some ev =>
        ([("#" ++ hk, hk), ("#" ++ rk, rk)],
         [(":" ++ hk, o.hashKeyValue), (":startValue", sv), (":endValue", ev)])
      | _, _, _ => ([("#" ++ hk, hk)], [(":" ++ hk, o.hashKeyValue)])
    .ok
      { tableName := tableName
        keyConditionExpression := kce
        expressionAttributeNames := maps.1
        expressionAttributeValues := maps.2
        indexName := if jsStrTruthy o.index then o.index else none }

/-- `_queryBetween`: either the local `ServiceError`, or the issued request
paired with the result shaped from the remote response. -/
def queryBetweenRun {I : Type} (tableName : String) (o : BetweenOptions)
    (respItems : Option (List I)) :
    Except ServiceError (QueryCommandInput × List I) :=
  (queryBetweenBuild tableName o).map (fun req => (req, queryResultItems respItems))

/-- The two ways `_get` reaches the remote service. -/
inductive GetAction where
  | viaQuery (q : QueryCommandInput)
  | viaGet (tableName : String) (key : List (String × JsVal))
deriving DecidableEq

/-- Which request `_get` issues (`AbstractService.ts` lines 291-313): with a
truthy index it delegates to `_query`; otherwise it issues a direct
`GetCommand` whose key gains the range entry when the range key name and
value are both defined — the source uses loose `!= undefined` checks here,
so a range value of `0` counts as present on this path. -/
def getPlan (tableName : String) (o : GetOptions) : GetAction :=
  if jsStrTruthy o.index then .viaQuery (queryBuild tableName o)
  else
    .viaGet tableName
      ([(o.hashKey, o.hashKeyValue)] ++
        match o.rangeKey, o.rangeKeyValue with
        | some rk, some rv => [(rk, rv)]
        | _, _ => [])

/-- The result of `_get`: `item[0] || null` on the query path (query items
are attribute maps, hence truthy objects, so `|| null` fires exactly when
the first element is absent), `(Item as T) || null` on the direct path. -/
def getRun {I : Type} (o : GetOptions)
    (queryRespItems : Option (List I)) (getRespItem : Option I) : Option I :=
  if jsStrTruthy o.index then (queryResultItems queryRespItems).head?
  else getRespItem

/-- The property list of `_save` (`AbstractService.ts` lines 76-89):
`Object.keys(obj)` with the first occurrence of the hash key spliced out,
then — when a range key is declared (`!= undefined`) — the first occurrence
of the range key (`indexOf` returning `-1` makes the splice a no-op, which
is exactly `List.erase` on an absent element). -/
def saveProps (objKeys : List String) (hashKey : String)
    (rangeKey : Option String) : List String :=
  let ps := objKeys.erase hashKey
  match rangeKey with
  | some rk => ps.erase rk
  | none => ps

/-- The fields of the remote `UpdateCommandInput` that `_save` populates.
Key values are optional because `obj[k]` reads as `undefined` when `obj`
lacks the key attribute. -/
structure UpdateCommandInput where
  tableName : String
  key : List (String × Option JsVal)
  updateExpression : String
  expressionAttributeNames : List (String × String)
  expressionAttributeValues : List (String × Option JsVal)
  returnValues : String
deriving DecidableEq

/-- Request building of `_save` (`AbstractService.ts` lines 71-124).  The
attribute map `obj` is an ordered association list (a JS object's keys are
unique); `obj.lookup k` plays `obj[k]`. -/
def saveBuild (tableName hashKey : String) (rangeKey : Option String)
    (obj : List (String × JsVal)) : UpdateCommandInput :=
  let props := saveProps (obj.map Prod.fst) hashKey rangeKey
  { tableName := tableName
    key := [(hashKey, obj.lookup hashKey)] ++
      (match rangeKey with
       | some rk => [(rk, obj.lookup rk)]
       | none => [])
    updateExpression :=
      "SET " ++ String.intercalate "," (props.map fun p => "#" ++ p ++ " = :" ++ p)
    expressionAttributeNames := props.map fun p => ("#" ++ p, p)
    expressionAttributeValues := props.map fun p => (":" ++ p, obj.lookup p)
    returnValues := "ALL_NEW" }

/-- `_save` sends the built request and returns the response's new image
(`Attributes as T`). -/
def saveRun {I : Type} (tableName hashKey : String) (rangeKey : Option String)
    (obj : List (String × JsVal)) (respAttributes : Option I) :
    UpdateCommandInput × Option I :=
  (saveBuild tableName hashKey rangeKey obj, respAttributes)

/-- `chunk` from `src/utils.ts`: a reduce over the array's indices that, at
every index divisible by `size`, appends `array.slice(i, i + size)`.  (In
JS, `i % 0` is `NaN`, which is falsy, so with `size = 0` every index appends
its empty slice; Lean's `i % 0 = i` makes the explicit `size == 0` disjunct
necessary to reproduce that.) -/
def chunk {α : Type} (array : List α) (size : Nat) : List (List α) :=
  (List.range array.length).foldl
    (fun acc i =>
      if size == 0 || i % size == 0 then acc ++ [(array.drop i).take size]
      else acc)
    []

/-- One entry of `BatchGetOptions<T>.items`. -/
structure BatchKeyDescriptor where
  hashKey : String
  hashKeyValue : JsVal
  rangeKey : Option String := none
  rangeKeyValue : Option JsVal := none

/-- Key-map construction of `_batchGet` (`AbstractService.ts` lines
325-335): the range entry is added only under the truthy test
`item.rangeKey && item.rangeKeyValue`. -/
def batchKeyMap (it : BatchKeyDescriptor) : List (String × JsVal) :=
  [(it.hashKey, it.hashKeyValue)] ++ jsRangeEntry it.rangeKey it.rangeKeyValue

/-- The per-call key groups of `_batchGet`: the key maps chunked at the
remote batch ceiling `LIMIT = 100`; one batch-read remote call is issued per
group, sequentially in order. -/
def batchGetCalls (items : List BatchKeyDescriptor) :
    List (List (List (String × JsVal))) :=
  chunk (items.map batchKeyMap) 100

/-- The accumulation loop of `_batchGet` (`AbstractService.ts` lines
342-359): each group's call contributes the response's item list when
`Responses` is present and nothing otherwise; contributions concatenate in
call order. -/
def batchGetRun {I : Type}
    (respond : List (List (String × JsVal)) → Option (List I)) :
    List (List (List (String × JsVal))) → List I
  | [] => []
  | c :: rest =>
    (match respond c with
     | some items => items
     | none => []) ++ batchGetRun respond rest

/-- The scan loop of `_list` (`AbstractService.ts` lines 405-425).  `pages`
is the sequence of remote scan responses, consumed in order: the first page
is always fetched (do-while); each page's `Items`, when present, are
appended; under a truthy `limit`, an accumulation STRICTLY longer than
`limit` has its first `limit` elements removed (`results.splice(0, limit)`
discards its return value and leaves the tail in `results`), and the loop
breaks once the accumulation's length reaches `limit`; otherwise it
continues exactly while the page carried `LastEvaluatedKey`.  An exhausted
`pages` list ends the recursion with the current accumulation (a run of the
source consumes exactly the pages the remote hands it). -/
def listLoop {I K : Type} (limit : Option Nat) (acc : List I) :
    List (Option (List I) × Option K) → List I
  | [] => acc
  | (pageItems, lastKey) :: rest =>
    let acc1 := acc ++ pageItems.getD []
    if jsNatTruthy limit then
      let l := limit.getD 0
      let acc2 := if acc1.length > l then acc1.drop l else acc1
      if acc2.length ≥ l then acc2
      else
        match lastKey with
        | some _ => listLoop limit acc2 rest
        | none => acc2
    else
      match lastKey with
      | some _ => listLoop limit acc1 rest
      | none => acc1

/-- The fields of the remote `ScanCommandInput`. -/
structure ScanCommandInput where
  tableName : String
  limit : Option Nat := none
  exclusiveStartKey : Option (List (String × JsVal)) := none
deriving DecidableEq

/-- Request building of `_delete` (`AbstractService.ts` lines 433-449): the
range entry is added only under the truthy test
`rangeKey && rangeKeyValue`. -/
structure DeleteCommandInput where
  tableName : String
  key : List (String × JsVal)
deriving DecidableEq

def deleteBuild (tableName hashKey : String) (hashKeyValue : JsVal)
    (rangeKey : Option String) (rangeKeyValue : Option JsVal) :
    DeleteCommandInput :=
  { tableName := tableName
    key := [(hashKey, hashKeyValue)] ++ jsRangeEntry rangeKey rangeKeyValue }

/-- Modelled from the spec: the paginated-list operation `_paginate`
(spec section 4.7, README "Paginate Items") is listed in the repository's
README API and exercised by its tests, but its implementation is not present
under `src/`; only `_list` is.  Per the spec it issues a single scan page
bounded by `limit`, starting at the caller-supplied continuation token
(omitted on the initial call), and returns that page's items together with
the scan's returned continuation token, whose absence means the table is
exhausted. -/
def paginate {I : Type} (tableName : String) (limit : Option Nat)
    (startKey : Option (List (String × JsVal)))
    (respond : ScanCommandInput → Option (List I) × Option (List (String × JsVal))) :
    ScanCommandInput × List I × Option (List (String × JsVal)) :=
  let req : ScanCommandInput :=
    { tableName := tableName, limit := limit, exclusiveStartKey := startKey }
  let resp := respond req
  (req, (resp.1).getD [], resp.2)

/-! ### Helper lemmas about `chunk` -/

/-- A fold that conditionally appends is the filtered map. -/
theorem foldl_append_filter {α β : Type} (c : α → Bool) (f : α → β) :
    ∀ (xs : List α) (start : List β),
      xs.foldl (fun acc i => if c i then acc ++ [f i] else acc) start
        = start ++ (xs.filter c).map f
  | [], start => by simp
  | x :: xs, start => by
    by_cases h : c x = true <;>
      simp [List.filter_cons, h, List.foldl_cons,
        foldl_append_filter c f xs, List.append_assoc]

/-- The indices below `n` divisible by `100` are the first `⌈n/100⌉`
multiples of `100`. -/
theorem filter_range_mod_100 (n : Nat) :
    (List.range n).filter (fun i => i % 100 == 0)
      = (List.range ((n + 99) / 100)).map (· * 100) := by
  induction n with
  | zero => rfl
  | succ n ih =>
    rw [show n + 1 = n.succ from rfl, List.range_succ, List.filter_append, ih]
    by_cases h : n % 100 = 0
    · have hk : (n + 1 + 99) / 100 = (n + 99) / 100 + 1 := by omega
      have hn : ((n + 99) / 100) * 100 = n := by omega
      rw [hk, List.range_succ, List.map_append]
      simp [h, hn]
    · have hk : (n + 1 + 99) / 100 = (n + 99) / 100 := by omega
      have hb : (n % 100 == 0) = false := by simpa using h
      simp [hk, hb]

/-- `chunk _ 100` in closed form: the `⌈n/100⌉` consecutive slices of
length `100`. -/
theorem chunk_eq_map_range {α : Type} (l : List α) :
    chunk l 100
      = (List.range ((l.length + 99) / 100)).map
          (fun j => (l.drop (j * 100)).take 100) := by
  have h1 : chunk l 100
      = (List.range l.length).foldl
          (fun acc i =>
            if (fun i => i % 100 == 0) i then acc ++ [(l.drop i).take 100]
            else acc) [] := rfl
  rw [h1, foldl_append_filter (fun i => i % 100 == 0)
      (fun i => (l.drop i).take 100), filter_range_mod_100, List.map_map]
  simp [Function.comp]

/-- Concatenating the first `k` consecutive `100`-slices of `l` recovers the
first `k * 100` elements of `l`. -/
theorem flatten_map_slices {α : Type} (l : List α) :
    ∀ k : Nat,
      ((List.range k).map (fun j => (l.drop (j * 100)).take 100)).flatten
        = l.take (k * 100)
  | 0 => by simp
  | k + 1 => by
    rw [List.range_succ, List.map_append, List.flatten_append,
      flatten_map_slices l k, show (k + 1) * 100 = k * 100 + 100 by ring,
      List.take_add]
    simp

/-! ### Claim theorems -/

/-- C1: the limit handling of `_list` does not truncate the accumulation to
its first `limit` items.  With `limit = 2` and reachable scan pages — one
page with a single item `1` and a continuation token, then a page with items
`2, 3` and no token (a filtered scan may return fewer matches than `Limit`
per page) — the accumulated results are `[1, 2, 3]`, whose first two items
are `[1, 2]`; but `results.splice(0, limit)` deletes those first two items
and `_list` returns the remainder `[3]`, which is not the first `limit`
accumulated items and is even shorter than `limit`. -/
theorem list_limit_splice_drops_first_items :
    listLoop (I := Nat) (K := Nat) (some 2) []
        [(some [1], some 0), (some [2, 3], none)] = [3]
    ∧ (([1] ++ [2, 3] : List Nat)).take 2 = [1, 2]
    ∧ ([3] : List Nat) ≠ [1, 2] := by
  refine ⟨rfl, rfl, by decide⟩

/-- C2: `_queryBetween` skips the inverted-bounds check whenever either
bound is JS-falsy.  With the range key supplied and numeric bounds
`start = 1 > 0 = end`, the guard condition
`rangeKey && rangeKeyStartValue && rangeKeyEndValue` is false (the end bound
`0` is falsy), no `ServiceError` is raised, and a remote query request is
built and issued; with both bounds truthy (`2 > 1`) the guard does fire
before any request exists. -/
theorem queryBetween_zero_bound_skips_guard :
    jsGtOpt (some (JsVal.num 1)) (some (JsVal.num 0)) = true
    ∧ (queryBetweenBuild "TestRange"
        { hashKey := "id", hashKeyValue := JsVal.str "h",
          rangeKey := some "secondId",
          rangeKeyStartValue := some (JsVal.num 1),
          rangeKeyEndValue := some (JsVal.num 0) }).isOk = true
    ∧ queryBetweenBuild "TestRange"
        { hashKey := "id", hashKeyValue := JsVal.str "h",
          rangeKey := some "secondId",
          rangeKeyStartValue := some (JsVal.num 2),
          rangeKeyEndValue := some (JsVal.num 1) }
      = .error { message := "QueryBetween start value is greater than end value" } := by
  refine ⟨by decide, ?_, ?_⟩ <;> rfl

/-- C3: the operations with an optional range key treat a supplied range
value of `0` as absent, not as present.  `_query` builds the same request
for `rangeKeyValue = 0` as for no range key at all (key condition `#id = :id`
with no range clause), `_batchGet` builds a key map without the range
attribute, and `_delete` builds a key without the range attribute — while a
non-zero value such as `1` is included. -/
theorem zero_range_key_treated_as_absent :
    queryBuild "TestRange"
        { hashKey := "id", hashKeyValue := JsVal.str "h",
          rangeKey := some "secondId", rangeKeyValue := some (JsVal.num 0) }
      = queryBuild "TestRange" { hashKey := "id", hashKeyValue := JsVal.str "h" }
    ∧ (queryBuild "TestRange"
        { hashKey := "id", hashKeyValue := JsVal.str "h",
          rangeKey := some "secondId",
          rangeKeyValue := some (JsVal.num 0) }).keyConditionExpression
      = "#id = :id"
    ∧ batchKeyMap
        { hashKey := "id", hashKeyValue := JsVal.str "h",
          rangeKey := some "secondId", rangeKeyValue := some (JsVal.num 0) }
      = [("id", JsVal.str "h")]
    ∧ deleteBuild "TestRange" "id" (JsVal.str "h")
        (some "secondId") (some (JsVal.num 0))
      = { tableName := "TestRange", key := [("id", JsVal.str "h")] }
    ∧ (queryBuild "TestRange"
        { hashKey := "id", hashKeyValue := JsVal.str "h",
          rangeKey := some "secondId",
          rangeKeyValue := some (JsVal.num 1) }).keyConditionExpression
      = "#id = :id and #secondId = :secondId" := by
  refine ⟨rfl, rfl, rfl, rfl, rfl⟩

/-- C10: a save whose attribute map holds only the key attributes is neither
short-circuited nor rejected locally: `_save` still builds the update
request, whose update expression is the literal `"SET "` (empty clause body)
with empty expression attribute name and value maps, and sends it, returning
the remote response's new image. -/
theorem save_empty_body_still_sends :
    (saveBuild "Test" "id" none [("id", JsVal.str "abc")]).updateExpression
      = "SET "
    ∧ (saveBuild "Test" "id" none
        [("id", JsVal.str "abc")]).expressionAttributeNames = []
    ∧ (saveBuild "Test" "id" none
        [("id", JsVal.str "abc")]).expressionAttributeValues = []
    ∧ (saveBuild "Test" "id" none [("id", JsVal.str "abc")]).key
      = [("id", some (JsVal.str "abc"))]
    ∧ (saveBuild "TestRange" "id" (some "secondId")
        [("id", JsVal.str "a"), ("secondId", JsVal.num 0)]).updateExpression
      = "SET "
    ∧ (saveBuild "TestRange" "id" (some "secondId")
        [("id", JsVal.str "a"), ("secondId", JsVal.num 0)]).expressionAttributeNames
      = []
    ∧ (saveRun "Test" "id" none [("id", JsVal.str "abc")] (some 7)).2 = some 7 := by
  refine ⟨rfl, rfl, rfl, rfl, rfl, rfl, rfl⟩

/-- C9: every collection-returning operation is total over remote responses
that lack an item list — `_query` returns the empty array (never a null)
when the response carries no `Items`; `_queryBetween` likewise pairs its
request with the empty array; `_batchGet` skips every chunk whose response
carries no `Responses` and still returns an array; and a `_list` page with
no `Items` contributes exactly what a page with an empty item list would. -/
theorem collection_results_total {I K : Type} :
    (∀ (tableName : String) (o : GetOptions),
      (queryRun (I := I) tableName o none).2 = [])
    ∧ (∀ (tableName : String) (o : BetweenOptions),
      queryBetweenRun (I := I) tableName o none
        = (queryBetweenBuild tableName o).map (fun req => (req, ([] : List I))))
    ∧ (∀ chunks, batchGetRun (I := I) (fun _ => none) chunks = [])
    ∧ (∀ (limit : Option Nat) (acc : List I) (lastKey : Option K) rest,
      listLoop limit acc ((none, lastKey) :: rest)
        = listLoop limit acc ((some ([] : List I), lastKey) :: rest)) := by
  refine ⟨fun _ _ => rfl, fun _ _ => rfl, ?_, fun _ _ _ _ => rfl⟩
  intro chunks
  induction chunks with
  | nil => rfl
  | cons c rest ih => simpa [batchGetRun] using ih

/-- C4: the paginated-list operation fetches one bounded page per call: the
scan request it issues carries the caller-supplied continuation token as its
exclusive start key (`none` on the initial call) and the page bound as its
limit, and the call returns that page's items (empty when the response has
none) together with the response's continuation token — the caller resumes
by passing that token back in, and a `none` token is returned exactly when
the scan response carried none, signalling the end of the table. -/
theorem paginate_surfaces_token {I : Type} (tableName : String)
    (limit : Option Nat) (startKey : Option (List (String × JsVal)))
    (respond : ScanCommandInput → Option (List I) × Option (List (String × JsVal))) :
    (paginate tableName limit startKey respond).1.exclusiveStartKey = startKey
    ∧ (paginate tableName limit startKey respond).1.limit = limit
    ∧ (paginate tableName limit startKey respond).2.1
      = (respond (paginate tableName limit startKey respond).1).1.getD []
    ∧ (paginate tableName limit startKey respond).2.2
      = (respond (paginate tableName limit startKey respond).1).2 := by
  refine ⟨rfl, rfl, rfl, rfl⟩

/-- The spec's notion of a non-key attribute: any attribute other than the
declared hash key and (when declared) the range key. -/
def nonKeyAttr (hashKey : String) (rangeKey : Option String) (k : String) : Bool :=
  k != hashKey &&
    (match rangeKey with
     | some rk => k != rk
     | none => true)

/-- On duplicate-free key lists (a JS object's keys are unique), the splice
logic of `_save` keeps exactly the non-key attributes, in order. -/
theorem saveProps_eq_filter (objKeys : List String) (hashKey : String)
    (rangeKey : Option String) (hnd : objKeys.Nodup) :
    saveProps objKeys hashKey rangeKey
      = objKeys.filter (nonKeyAttr hashKey rangeKey) := by
  cases rangeKey with
  | none =>
    show objKeys.erase hashKey = _
    rw [hnd.erase_eq_filter]
    congr 1
    funext k
    cases h1 : k == hashKey <;> simp [nonKeyAttr, h1]
  | some rk =>
    show (objKeys.erase hashKey).erase rk = _
    rw [hnd.erase_eq_filter, (hnd.filter _).erase_eq_filter, List.filter_filter]
    congr 1
    funext k
    cases h1 : k == hashKey <;> cases h2 : k == rk <;>
      simp [nonKeyAttr, bne, h1, h2]

/-- C5: for every save input (attribute names unique, as a JS object's keys
are), the hash-key and range-key attributes are stripped before the update
expression is built: the update expression and the expression attribute
name/value maps contain exactly the non-key attributes of the supplied
object, the request key carries the hash-key (and range-key) values read
from the object, the request asks for the new image (`ALL_NEW`), and the
operation returns the remote response's resulting item. -/
theorem save_strips_keys (tableName hashKey : String) (rangeKey : Option String)
    (obj : List (String × JsVal)) {I : Type} (respAttributes : Option I)
    (hnd : (obj.map Prod.fst).Nodup) :
    saveBuild tableName hashKey rangeKey obj
      = { tableName := tableName
          key := [(hashKey, obj.lookup hashKey)] ++
            (match rangeKey with
             | some rk => [(rk, obj.lookup rk)]
             | none => [])
          updateExpression := "SET " ++ String.intercalate ","
            (((obj.map Prod.fst).filter (nonKeyAttr hashKey rangeKey)).map
              fun p => "#" ++ p ++ " = :" ++ p)
          expressionAttributeNames :=
            ((obj.map Prod.fst).filter (nonKeyAttr hashKey rangeKey)).map
              fun p => ("#" ++ p, p)
          expressionAttributeValues :=
            ((obj.map Prod.fst).filter (nonKeyAttr hashKey rangeKey)).map
              fun p => (":" ++ p, obj.lookup p)
          returnValues := "ALL_NEW" }
    ∧ (saveRun tableName hashKey rangeKey obj respAttributes).2
      = respAttributes := by
  refine ⟨?_, rfl⟩
  simp only [saveBuild,
    saveProps_eq_filter (obj.map Prod.fst) hashKey rangeKey hnd]

/-- Witness for C5 at a concrete save call. -/
theorem save_strips_keys_witness :
    saveBuild "Test" "id" none [("id", JsVal.str "1"), ("name", JsVal.str "Bob")]
      = { tableName := "Test"
          key := [("id", some (JsVal.str "1"))]
          updateExpression := "SET #name = :name"
          expressionAttributeNames := [("#name", "name")]
          expressionAttributeValues := [(":name", some (JsVal.str "Bob"))]
          returnValues := "ALL_NEW" }
    ∧ (saveRun "Test" "id" none
        [("id", JsVal.str "1"), ("name", JsVal.str "Bob")]
        (some 3 : Option Nat)).2 = some 3 :=
  save_strips_keys "Test" "id" none
    [("id", JsVal.str "1"), ("name", JsVal.str "Bob")] (some 3) (by decide)

/-- The accumulation of `_batchGet` is the concatenation, in call order, of
each call's returned items (`none` responses contributing nothing). -/
theorem batchGetRun_eq_flatten {I : Type}
    (respond : List (List (String × JsVal)) → Option (List I)) :
    ∀ cs, batchGetRun respond cs
      = (cs.map (fun c => (respond c).getD [])).flatten
  | [] => rfl
  | c :: rest => by
    cases h : respond c <;>
      simp [batchGetRun, h, batchGetRun_eq_flatten respond rest]

/-- C6: `chunk(keys, 100)` partitions the built key maps into `⌈n/100⌉`
consecutive groups of size at most `100` whose concatenation is the input
key list, `_batchGet` issues exactly one sequential batch-read call per
group (so `⌈n/100⌉` calls: `2` for `200` keys, `0` for an empty list), and
returns the concatenation, in call order, of the items those calls
returned. -/
theorem batchGet_chunking (items : List BatchKeyDescriptor) {I : Type}
    (respond : List (List (String × JsVal)) → Option (List I)) :
    (batchGetCalls items).length = (items.length + 99) / 100
    ∧ (∀ c ∈ batchGetCalls items, c.length ≤ 100)
    ∧ (batchGetCalls items).flatten = items.map batchKeyMap
    ∧ batchGetRun respond (batchGetCalls items)
      = ((batchGetCalls items).map (fun c => (respond c).getD [])).flatten := by
  have hkeys : (items.map batchKeyMap).length = items.length := by simp
  refine ⟨?_, ?_, ?_, batchGetRun_eq_flatten respond _⟩
  · rw [batchGetCalls, chunk_eq_map_range]
    simp [hkeys]
  · intro c hc
    rw [batchGetCalls, chunk_eq_map_range] at hc
    rw [List.mem_map] at hc
    obtain ⟨j, _, rfl⟩ := hc
    simp [List.length_take]
  · rw [batchGetCalls, chunk_eq_map_range, hkeys, flatten_map_slices]
    apply List.take_of_length_le
    rw [hkeys]
    omega

/-- Witness for C6 at concrete batch calls: 200 keys chunk into exactly two
calls, and an empty key list into zero calls. -/
theorem batchGet_chunking_witness :
    (batchGetCalls (List.replicate 200
      { hashKey := "id", hashKeyValue := JsVal.str "x" })).length = 2
    ∧ batchGetCalls [] = [] := by
  constructor
  · have h := (batchGet_chunking
      (List.replicate 200 { hashKey := "id", hashKeyValue := JsVal.str "x" })
      (fun _ => (none : Option (List Nat)))).1
    rw [List.length_replicate] at h
    omega
  · rfl

/-- C7: with an index name supplied, `_get` delegates to `_query` and
returns the first element of the query result, or null when it is empty;
with no index it performs a direct key lookup (range entry included exactly
when name and value are defined, zero included) and returns the item or
null; and absence is always signalled by the null result, never an error. -/
theorem get_delegates_and_null (tableName : String) (o : GetOptions)
    {I : Type} (queryRespItems : Option (List I)) (getRespItem : Option I)
    (hidx : o.index ≠ some "") :
    (o.index.isSome = true →
      getPlan tableName o = .viaQuery (queryBuild tableName o)
      ∧ getRun o queryRespItems getRespItem
        = (queryResultItems queryRespItems).head?)
    ∧ (o.index = none →
      getPlan tableName o
        = .viaGet tableName ([(o.hashKey, o.hashKeyValue)] ++
            (match o.rangeKey, o.rangeKeyValue with
             | some rk, some rv => [(rk, rv)]
             | _, _ => []))
      ∧ getRun o queryRespItems getRespItem = getRespItem)
    ∧ getRun (I := I) o none none = none := by
  have htr : jsStrTruthy o.index = o.index.isSome := by
    cases hx : o.index with
    | none => rfl
    | some s =>
      have hs : s ≠ "" := by
        intro h
        exact hidx (by rw [hx, h])
      simp [jsStrTruthy, bne, hs]
  refine ⟨?_, ?_, ?_⟩
  · intro hs
    constructor <;> simp [getPlan, getRun, htr, hs]
  · intro hn
    constructor <;> simp [getPlan, getRun, jsStrTruthy, htr, hn]
  · unfold getRun
    split <;> simp [queryResultItems]

/-- Witness for C7 at a concrete indexed point-get. -/
theorem get_delegates_and_null_witness :
    (some "TestIndex" : Option String).isSome = true
    ∧ (getPlan "Test"
        { index := some "TestIndex", hashKey := "secondId",
          hashKeyValue := JsVal.str "s" }
      = .viaQuery (queryBuild "Test"
          { index := some "TestIndex", hashKey := "secondId",
            hashKeyValue := JsVal.str "s" })
      ∧ getRun
          { index := some "TestIndex", hashKey := "secondId",
            hashKeyValue := JsVal.str "s" }
          (some [5]) (none : Option Nat)
        = (queryResultItems (some [5])).head?) :=
  ⟨rfl,
   (get_delegates_and_null "Test"
      { index := some "TestIndex", hashKey := "secondId",
        hashKeyValue := JsVal.str "s" }
      (some [5]) none (by decide)).1 rfl⟩

/-- C8: the query request's scan-direction flag is set forward exactly for
`order = "asc"`, backward exactly for `order = "dsc"`, and left unset when
no order is supplied (remote default ascending); the limit field carries
exactly the supplied limit, and the index-name field carries exactly the
supplied index. -/
theorem query_order_limit_index (tableName : String) (o : GetOptions)
    (hidx : o.index ≠ some "") :
    ((queryBuild tableName o).scanIndexForward = some true
      ↔ o.order = some Order.asc)
    ∧ ((queryBuild tableName o).scanIndexForward = some false
      ↔ o.order = some Order.dsc)
    ∧ ((queryBuild tableName o).scanIndexForward = none ↔ o.order = none)
    ∧ (queryBuild tableName o).limit = o.limit
    ∧ (queryBuild tableName o).indexName = o.index := by
  have hsif : (queryBuild tableName o).scanIndexForward
      = o.order.map (fun ord => ord == Order.asc) := rfl
  have hidxf : (queryBuild tableName o).indexName
      = (if jsStrTruthy o.index then o.index else none) := rfl
  refine ⟨?_, ?_, ?_, rfl, ?_⟩
  · rw [hsif]
    cases ho : o.order with
    | none => simp
    | some ord => cases ord <;> simp
  · rw [hsif]
    cases ho : o.order with
    | none => simp
    | some ord => cases ord <;> simp
  · rw [hsif]
    cases ho : o.order <;> simp
  · rw [hidxf]
    cases hx : o.index with
    | none => simp [jsStrTruthy]
    | some s =>
      have hs : s ≠ "" := by
        intro h
        exact hidx (by rw [hx, h])
      simp [jsStrTruthy, bne, hs]

/-- Witness for C8 at a concrete descending, limited, indexed query. -/
theorem query_order_limit_index_witness :
    (queryBuild "Test"
      { index := some "TestIndex", order := some Order.dsc, limit := some 5,
        hashKey := "id", hashKeyValue := JsVal.str "h" }).scanIndexForward
      = some false
    ∧ (queryBuild "Test"
        { index := some "TestIndex", order := some Order.dsc, limit := some 5,
          hashKey := "id", hashKeyValue := JsVal.str "h" }).limit = some 5
    ∧ (queryBuild "Test"
        { index := some "TestIndex", order := some Order.dsc, limit := some 5,
          hashKey := "id", hashKeyValue := JsVal.str "h" }).indexName
      = some "TestIndex" :=
  ⟨((query_order_limit_index "Test"
      { index := some "TestIndex", order := some Order.dsc, limit := some 5,
        hashKey := "id", hashKeyValue := JsVal.str "h" }
      (by decide)).2.1).mpr rfl,
   (query_order_limit_index "Test"
      { index := some "TestIndex", order := some Order.dsc, limit := some 5,
        hashKey := "id", hashKeyValue := JsVal.str "h" }
      (by decide)).2.2.2.1,
   (query_order_limit_index "Test"
      { index := some "TestIndex", order := some Order.dsc, limit := some 5,
        hashKey := "id", hashKeyValue := JsVal.str "h" }
      (by decide)).2.2.2.2⟩

end DynamoDBService
